import Mathlib

/-!
Shallow embedding of the geometry core of `src/CurvedPianoKeys.tsx`
(the `curved-piano-keys` package).  JavaScript numbers are modelled as
exact rationals; `Math.hypot` is an explicit function parameter, since
the exact Euclidean norm is irrational in general — theorems that need
it being a genuine norm take pointwise hypotheses on it.
-/

namespace CurvedPianoKeys

/-- A planar point, `{x, y}` in the source. -/
structure Point where
  x : ℚ
  y : ℚ
deriving DecidableEq, Repr

/-- The curve-geometry primitive consumed by the core: an `SVGPathElement`
exposing `getTotalLength()` and `getPointAtLength(s)`. -/
structure Curve where
  totalLength : ℚ
  pointAt : ℚ → Point

/-- Local frame returned by `geoAt` (lines 162-179): position `p`,
unit tangent `t`, normal `n`. -/
structure Frame where
  p : Point
  t : Point
  n : Point
deriving DecidableEq

/-- A key polygon: the 8-tuple `[a1x,a1y,b1x,b1y,b2x,b2y,a2x,a2y]`
of the source, grouped as four ordered corner points. -/
structure Quad where
  p1 : Point
  p2 : Point
  p3 : Point
  p4 : Point
deriving DecidableEq, Repr

/-- Natural note names. -/
inductive Note | A | B | C | D | E | F | G
deriving DecidableEq, Repr

/-- `startOn` prop: `'A' | 'C'`. -/
inductive StartOn | A | C
deriving DecidableEq, Repr

/-- `orientation` prop: `1 | -1`. -/
inductive Orientation | up | down
deriving DecidableEq, Repr

/-- Numeric value of the orientation flag (`1` or `-1`). -/
def Orientation.val : Orientation → ℚ
  | .up => 1
  | .down => -1

/-- `NOTE_ORDER_A` (line 118). -/
def NOTE_ORDER_A : List Note := [.A, .B, .C, .D, .E, .F, .G]

/-- `NOTE_ORDER_C` (line 119). -/
def NOTE_ORDER_C : List Note := [.C, .D, .E, .F, .G, .A, .B]

/-- `order = startOn === 'A' ? NOTE_ORDER_A : NOTE_ORDER_C` (line 335). -/
def noteOrder : StartOn → List Note
  | .A => NOTE_ORDER_A
  | .C => NOTE_ORDER_C

/-- `BLACK_FRACTIONS` (lines 122-130): fractional offset for the black key
following each white note, `null` for B and E. -/
def BLACK_FRACTIONS : Note → Option ℚ
  | .A => some (6/10)
  | .B => none
  | .C => some (6/10)
  | .D => some (4/10)
  | .E => none
  | .F => some (6/10)
  | .G => some (5/10)

/-- `clamp` inside `geoAt` (line 164): `Math.max(0, Math.min(total, value))`. -/
def clampLen (total value : ℚ) : ℚ := max 0 (min total value)

/-- `tangentX = next.x - previous.x` (lines 167-169), with both samples
clamped independently and `delta = 0.5`. -/
def chordX (path : Curve) (s : ℚ) : ℚ :=
  (path.pointAt (clampLen path.totalLength (s + 1/2))).x -
    (path.pointAt (clampLen path.totalLength (s - 1/2))).x

/-- `tangentY = next.y - previous.y` (lines 168-170). -/
def chordY (path : Curve) (s : ℚ) : ℚ :=
  (path.pointAt (clampLen path.totalLength (s + 1/2))).y -
    (path.pointAt (clampLen path.totalLength (s - 1/2))).y

/-- `tangentLength = Math.hypot(tangentX, tangentY) || 1e-6` (line 171):
the guard fires exactly when the hypot value is `0` (the only falsy
rational). -/
def tangentLen (hypot : ℚ → ℚ → ℚ) (path : Curve) (s : ℚ) : ℚ :=
  if hypot (chordX path s) (chordY path s) = 0 then 1/1000000
  else hypot (chordX path s) (chordY path s)

/-- `geoAt` (lines 162-179): position at the clamped arc length, unit
tangent from the normalized chord, normal `(-unitY, unitX)`. -/
def geoAt (hypot : ℚ → ℚ → ℚ) (path : Curve) (s : ℚ) : Frame :=
  { p := path.pointAt (clampLen path.totalLength s)
    t := ⟨chordX path s / tangentLen hypot path s,
          chordY path s / tangentLen hypot path s⟩
    n := ⟨-(chordY path s / tangentLen hypot path s),
          chordX path s / tangentLen hypot path s⟩ }

/-- `makeQuadCentered` (lines 181-193): corners
`[start + n*h, end + n*h, end - n*h, start - n*h]`. -/
def makeQuadCentered (hypot : ℚ → ℚ → ℚ) (path : Curve) (s0 s1 halfDepth : ℚ) :
    Quad :=
  let start := geoAt hypot path s0
  let stop := geoAt hypot path s1
  { p1 := ⟨start.p.x + start.n.x * halfDepth, start.p.y + start.n.y * halfDepth⟩
    p2 := ⟨stop.p.x + stop.n.x * halfDepth, stop.p.y + stop.n.y * halfDepth⟩
    p3 := ⟨stop.p.x - stop.n.x * halfDepth, stop.p.y - stop.n.y * halfDepth⟩
    p4 := ⟨start.p.x - start.n.x * halfDepth, start.p.y - start.n.y * halfDepth⟩ }

/-- `makeQuadFromEdge` (lines 195-214): anchor edge at `anchorOffset` along
the normal, opposite edge extruded a further `depth * orientation`. -/
def makeQuadFromEdge (hypot : ℚ → ℚ → ℚ) (path : Curve)
    (s0 s1 anchorOffset depth : ℚ) (orientation : Orientation) : Quad :=
  let start := geoAt hypot path s0
  let stop := geoAt hypot path s1
  let startAnchorX := start.p.x + start.n.x * anchorOffset
  let startAnchorY := start.p.y + start.n.y * anchorOffset
  let endAnchorX := stop.p.x + stop.n.x * anchorOffset
  let endAnchorY := stop.p.y + stop.n.y * anchorOffset
  let startInnerX := startAnchorX + start.n.x * depth * orientation.val
  let startInnerY := startAnchorY + start.n.y * depth * orientation.val
  let endInnerX := endAnchorX + stop.n.x * depth * orientation.val
  let endInnerY := endAnchorY + stop.n.y * depth * orientation.val
  { p1 := ⟨startAnchorX, startAnchorY⟩
    p2 := ⟨endAnchorX, endAnchorY⟩
    p3 := ⟨endInnerX, endInnerY⟩
    p4 := ⟨startInnerX, startInnerY⟩ }

/-- `whiteCount = Math.max(1, Math.floor(effectiveWhiteKeys))` (line 320). -/
def whiteCountOf (requested : ℚ) : ℕ := (max 1 ⌊requested⌋).toNat

/-- `span = whiteKeySpan && whiteKeySpan > 0 ? whiteKeySpan : totalLength / whiteCount`
(line 322). -/
def spanOf (totalLength : ℚ) (whiteCount : ℕ) (whiteKeySpan : Option ℚ) : ℚ :=
  match whiteKeySpan with
  | some w => if 0 < w then w else totalLength / (whiteCount : ℚ)
  | none => totalLength / (whiteCount : ℚ)

/-- `boundaries[index] = Math.min(index * span, totalLength)` (line 326). -/
def boundaryAt (span totalLength : ℚ) (index : ℕ) : ℚ :=
  min ((index : ℚ) * span) totalLength

/-- The boundary array built by the loop at lines 324-327. -/
def partition (totalLength span : ℚ) (whiteCount : ℕ) : List ℚ :=
  (List.range (whiteCount + 1)).map fun index => boundaryAt span totalLength index

/-- The boundary array as derived from the raw props (lines 320-327 composed). -/
def boundariesOf (requested totalLength : ℚ) (whiteKeySpan : Option ℚ) : List ℚ :=
  partition totalLength (spanOf totalLength (whiteCountOf requested) whiteKeySpan)
    (whiteCountOf requested)

/-- `anchorOffset = orientation === 1 ? -halfWhite : halfWhite` (line 339). -/
def anchorOffsetOf (thickness : ℚ) : Orientation → ℚ
  | .up => -(thickness / 2)
  | .down => thickness / 2

/-- First clamp step (lines 355-359): shift the interval up when its low
edge is below the window. -/
def shiftLow (minBoundary startOffset endOffset : ℚ) : ℚ × ℚ :=
  if startOffset < minBoundary then
    (startOffset + (minBoundary - startOffset), endOffset + (minBoundary - startOffset))
  else (startOffset, endOffset)

/-- Second clamp step (lines 361-365): shift the interval down when its high
edge is above the window. -/
def shiftHigh (maxBoundary startOffset endOffset : ℚ) : ℚ × ℚ :=
  if endOffset > maxBoundary then
    (startOffset - (endOffset - maxBoundary), endOffset - (endOffset - maxBoundary))
  else (startOffset, endOffset)

/-- The clamp pipeline of lines 355-370: shift a low overflow, then a high
overflow, take the final `s0 = max(min, start)`, `s1 = min(max, end)`, and
emit only when `s1 > s0`. -/
def clampExtent (minBoundary maxBoundary startOffset endOffset : ℚ) :
    Option (ℚ × ℚ) :=
  let lo := shiftLow minBoundary startOffset endOffset
  let hi := shiftHigh maxBoundary lo.1 lo.2
  let s0 := max minBoundary hi.1
  let s1 := min maxBoundary hi.2
  if s1 > s0 then some (s0, s1) else none

/-- The black-key placement for one boundary index (loop body, lines
341-373, geometry part): `none` when the cadence note carries no black key
or the clamped extent collapses, otherwise the final `[s0, s1]` extent. -/
def blackSlot (span totalLength : ℚ) (whiteCount : ℕ) (order : List Note)
    (blackWidthRatio : ℚ) (index : ℕ) : Option (ℚ × ℚ) :=
  match BLACK_FRACTIONS (order.getD (index % 7) Note.A) with
  | none => none
  | some _ =>
    clampExtent (boundaryAt span totalLength index + 1/1000)
      (boundaryAt span totalLength (min (index + 2) whiteCount) - 1/1000)
      (boundaryAt span totalLength (index + 1) - span * blackWidthRatio / 2)
      (boundaryAt span totalLength (index + 1) + span * blackWidthRatio / 2)

/-- The geometry-affecting props consumed by the layout effect. -/
structure KeyboardOptions where
  effectiveWhiteKeys : ℚ
  startOn : StartOn
  thickness : ℚ
  whiteKeySpan : Option ℚ
  blackWidthRatio : ℚ
  blackDepth : ℚ
  orientation : Orientation
deriving DecidableEq

/-- The two polygon lists produced by the layout effect. -/
structure Keyboard where
  whites : List Quad
  blacks : List Quad
deriving DecidableEq

/-- The pure core of the layout effect (lines 320-373): boundary
partition, white quads, black-key placement and quads. -/
def computeKeyboard (hypot : ℚ → ℚ → ℚ) (path : Curve) (o : KeyboardOptions) :
    Keyboard :=
  let whiteCount := whiteCountOf o.effectiveWhiteKeys
  let totalLength := path.totalLength
  let span := spanOf totalLength whiteCount o.whiteKeySpan
  let halfWhite := o.thickness / 2
  let whites := (List.range whiteCount).map fun index =>
    makeQuadCentered hypot path (boundaryAt span totalLength index)
      (boundaryAt span totalLength (index + 1)) halfWhite
  let order := noteOrder o.startOn
  let blackDepthPx := o.thickness * o.blackDepth
  let anchorOffset := anchorOffsetOf o.thickness o.orientation
  let blacks := (List.range (whiteCount - 1)).filterMap fun index =>
    (blackSlot span totalLength whiteCount order o.blackWidthRatio index).map
      fun extent =>
        makeQuadFromEdge hypot path extent.1 extent.2 anchorOffset blackDepthPx
          o.orientation
  { whites := whites, blacks := blacks }

/-- Twice the signed (shoelace) area of a quad — the standard polygon-area
formula, used to state the zero-area property. -/
def quadArea2 (q : Quad) : ℚ :=
  (q.p1.x * q.p2.y - q.p2.x * q.p1.y) + (q.p2.x * q.p3.y - q.p3.x * q.p2.y) +
    (q.p3.x * q.p4.y - q.p4.x * q.p3.y) + (q.p4.x * q.p1.y - q.p1.x * q.p4.y)

/-- A straight horizontal curve of a given length, used as a concrete test
curve in witnesses. -/
def lineCurve (length : ℚ) : Curve :=
  { totalLength := length, pointAt := fun s => ⟨s, 0⟩ }

/-- A computable stand-in for `Math.hypot`, exact on axis-aligned vectors;
used only to instantiate witnesses. -/
def qhypot (x y : ℚ) : ℚ :=
  if x = 0 then |y| else if y = 0 then |x| else 0

end CurvedPianoKeys

namespace CurvedPianoKeys

/-! ### Helper lemmas -/

lemma spanOf_nonneg (L : ℚ) (N : ℕ) (es : Option ℚ) (hL : 0 ≤ L) :
    0 ≤ spanOf L N es := by
  unfold spanOf
  match es with
  | none => positivity
  | some w =>
    by_cases hw : 0 < w
    · simp [hw]; linarith
    · simp [hw]; positivity

lemma partition_length (L span : ℚ) (N : ℕ) :
    (partition L span N).length = N + 1 := by
  simp [partition]

lemma partition_getD (L span : ℚ) (N i : ℕ) (h : i ≤ N) :
    (partition L span N).getD i 0 = min ((i : ℚ) * span) L := by
  have hi : i < N + 1 := Nat.lt_succ_of_le h
  simp [partition, boundaryAt, List.getD_eq_getElem?_getD, List.getElem?_map,
    List.getElem?_range, hi]

lemma clampExtent_some (m M a b s0 s1 : ℚ)
    (h : clampExtent m M a b = some (s0, s1)) :
    m ≤ s0 ∧ s0 < s1 ∧ s1 ≤ M := by
  simp only [clampExtent] at h
  split at h
  · rename_i hgt
    simp only [Option.some.injEq, Prod.mk.injEq] at h
    obtain ⟨h0, h1⟩ := h
    subst h0 h1
    exact ⟨le_max_left _ _, hgt, min_le_left _ _⟩
  · exact absurd h (by simp)

lemma clampExtent_width (m M a b : ℚ) (hab : a < b) (hfit : b - a ≤ M - m) :
    ∃ s0 s1 : ℚ, clampExtent m M a b = some (s0, s1) ∧ s1 - s0 = b - a := by
  by_cases h1 : a < m
  · by_cases h2 : b + (m - a) > M
    · exact absurd h2 (by push_neg; linarith)
    · simp only [clampExtent, shiftLow, shiftHigh, if_pos h1, if_neg h2]
      have hs0 : m ⊔ (a + (m - a)) = m := by
        rw [show a + (m - a) = m by ring, max_self]
      have hs1 : M ⊓ (b + (m - a)) = b + (m - a) := min_eq_right (by linarith)
      rw [hs0, hs1, if_pos (by linarith)]
      exact ⟨m, b + (m - a), rfl, by ring⟩
  · push_neg at h1
    by_cases h2 : b > M
    · simp only [clampExtent, shiftLow, shiftHigh, if_neg (not_lt.mpr h1), if_pos h2]
      have hs0 : m ⊔ (a - (b - M)) = a - (b - M) := max_eq_right (by linarith)
      have hs1 : M ⊓ (b - (b - M)) = b - (b - M) := min_eq_right (by linarith)
      rw [hs0, hs1, if_pos (by linarith)]
      exact ⟨a - (b - M), b - (b - M), rfl, by ring⟩
    · simp only [clampExtent, shiftLow, shiftHigh, if_neg (not_lt.mpr h1), if_neg h2]
      have hs0 : m ⊔ a = a := max_eq_right h1
      have hs1 : M ⊓ b = b := min_eq_right (not_lt.mp h2)
      rw [hs0, hs1, if_pos (by linarith)]
      exact ⟨a, b, rfl, rfl⟩

lemma geoAt_zero_total (hypot : ℚ → ℚ → ℚ) (path : Curve)
    (h0 : hypot 0 0 = 0) (hL : path.totalLength = 0) (s : ℚ) :
    geoAt hypot path s = ⟨path.pointAt 0, ⟨0, 0⟩, ⟨0, 0⟩⟩ := by
  have hc : ∀ v : ℚ, clampLen path.totalLength v = 0 := by
    intro v
    rw [hL]
    exact max_eq_left (min_le_left 0 v)
  have hcx : chordX path s = 0 := by unfold chordX; rw [hc, hc]; ring
  have hcy : chordY path s = 0 := by unfold chordY; rw [hc, hc]; ring
  unfold geoAt tangentLen
  rw [hcx, hcy, h0, hc]
  norm_num

/-! ### Claim theorems -/

/-- C1: for every curve of total length `L ≥ 0`, requested white-key count
`r`, and optional explicit span, with `N = max(1, ⌊r⌋)` and
`span = explicitSpan` when positive else `L / N`, the partitioner returns
exactly `N + 1` boundaries with `boundaries[i] = min(i * span, L)`; the
sequence is non-decreasing, starts at `0`, and ends at `L` whenever
`span * N ≥ L`. -/
theorem c1_partition_correct (r L : ℚ) (es : Option ℚ) (hL : 0 ≤ L) :
    (boundariesOf r L es).length = whiteCountOf r + 1
    ∧ (∀ i : ℕ, i ≤ whiteCountOf r →
        (boundariesOf r L es).getD i 0 = min ((i : ℚ) * spanOf L (whiteCountOf r) es) L)
    ∧ (∀ i : ℕ, i < whiteCountOf r →
        (boundariesOf r L es).getD i 0 ≤ (boundariesOf r L es).getD (i + 1) 0)
    ∧ (boundariesOf r L es).getD 0 0 = 0
    ∧ (L ≤ spanOf L (whiteCountOf r) es * (whiteCountOf r : ℚ) →
        (boundariesOf r L es).getD (whiteCountOf r) 0 = L)
    ∧ (∀ w : ℚ, 0 < w → spanOf L (whiteCountOf r) (some w) = w)
    ∧ (∀ w : ℚ, ¬0 < w → spanOf L (whiteCountOf r) (some w) = L / (whiteCountOf r : ℚ))
    ∧ spanOf L (whiteCountOf r) none = L / (whiteCountOf r : ℚ) := by
  have hspan : 0 ≤ spanOf L (whiteCountOf r) es := spanOf_nonneg L (whiteCountOf r) es hL
  unfold boundariesOf
  refine ⟨partition_length _ _ _, ?_, ?_, ?_, ?_, ?_, ?_, rfl⟩
  · intro i hi
    exact partition_getD _ _ _ _ hi
  · intro i hi
    rw [partition_getD _ _ _ _ hi.le, partition_getD _ _ _ _ hi]
    refine min_le_min (mul_le_mul_of_nonneg_right ?_ hspan) le_rfl
    push_cast
    linarith
  · rw [partition_getD _ _ _ _ (Nat.zero_le _)]
    simp [hL]
  · intro hfit
    rw [partition_getD _ _ _ _ le_rfl]
    rw [min_eq_right]
    linarith [hfit]
  · intro w hw
    simp [spanOf, hw]
  · intro w hw
    simp [spanOf, hw]

theorem c1_partition_correct_witness :
    (0:ℚ) ≤ 700
    ∧ ((boundariesOf 7 700 none).length = whiteCountOf 7 + 1
    ∧ (∀ i : ℕ, i ≤ whiteCountOf 7 →
        (boundariesOf 7 700 none).getD i 0 = min ((i : ℚ) * spanOf 700 (whiteCountOf 7) none) 700)
    ∧ (∀ i : ℕ, i < whiteCountOf 7 →
        (boundariesOf 7 700 none).getD i 0 ≤ (boundariesOf 7 700 none).getD (i + 1) 0)
    ∧ (boundariesOf 7 700 none).getD 0 0 = 0
    ∧ (700 ≤ spanOf 700 (whiteCountOf 7) none * (whiteCountOf 7 : ℚ) →
        (boundariesOf 7 700 none).getD (whiteCountOf 7) 0 = 700)
    ∧ (∀ w : ℚ, 0 < w → spanOf 700 (whiteCountOf 7) (some w) = w)
    ∧ (∀ w : ℚ, ¬0 < w → spanOf 700 (whiteCountOf 7) (some w) = 700 / (whiteCountOf 7 : ℚ))
    ∧ spanOf 700 (whiteCountOf 7) none = 700 / (whiteCountOf 7 : ℚ)) :=
  ⟨by norm_num, c1_partition_correct 7 700 none (by norm_num)⟩

/-- C2: the local frame sampler clamps every sample position into
`[0, totalLength]`, samples the curve at `s - 0.5` and `s + 0.5` (each
clamped independently), normalizes the chord with a nonzero guarded length
(`1e-6` substituted exactly when the hypot value is `0`, so no division by
zero reaches the output), and returns `normal = (-tangent.y, tangent.x)`. -/
theorem c2_frame_sampler (hypot : ℚ → ℚ → ℚ) (path : Curve) (s : ℚ)
    (hL : 0 ≤ path.totalLength) :
    (0 ≤ clampLen path.totalLength (s - 1/2)
      ∧ clampLen path.totalLength (s - 1/2) ≤ path.totalLength)
    ∧ (0 ≤ clampLen path.totalLength (s + 1/2)
      ∧ clampLen path.totalLength (s + 1/2) ≤ path.totalLength)
    ∧ tangentLen hypot path s ≠ 0
    ∧ (geoAt hypot path s).p = path.pointAt (clampLen path.totalLength s)
    ∧ (geoAt hypot path s).t = ⟨chordX path s / tangentLen hypot path s,
        chordY path s / tangentLen hypot path s⟩
    ∧ (geoAt hypot path s).n = ⟨-((geoAt hypot path s).t.y), (geoAt hypot path s).t.x⟩ := by
  refine ⟨⟨le_max_left _ _, max_le hL (min_le_left _ _)⟩,
    ⟨le_max_left _ _, max_le hL (min_le_left _ _)⟩, ?_, rfl, rfl, rfl⟩
  unfold tangentLen
  split_ifs with h
  · norm_num
  · exact h

theorem c2_frame_sampler_witness :
    (0:ℚ) ≤ (lineCurve 2).totalLength
    ∧ ((0 ≤ clampLen (lineCurve 2).totalLength ((1:ℚ) - 1/2)
      ∧ clampLen (lineCurve 2).totalLength ((1:ℚ) - 1/2) ≤ (lineCurve 2).totalLength)
    ∧ (0 ≤ clampLen (lineCurve 2).totalLength ((1:ℚ) + 1/2)
      ∧ clampLen (lineCurve 2).totalLength ((1:ℚ) + 1/2) ≤ (lineCurve 2).totalLength)
    ∧ tangentLen qhypot (lineCurve 2) 1 ≠ 0
    ∧ (geoAt qhypot (lineCurve 2) 1).p = (lineCurve 2).pointAt (clampLen (lineCurve 2).totalLength 1)
    ∧ (geoAt qhypot (lineCurve 2) 1).t = ⟨chordX (lineCurve 2) 1 / tangentLen qhypot (lineCurve 2) 1,
        chordY (lineCurve 2) 1 / tangentLen qhypot (lineCurve 2) 1⟩
    ∧ (geoAt qhypot (lineCurve 2) 1).n = ⟨-((geoAt qhypot (lineCurve 2) 1).t.y),
        (geoAt qhypot (lineCurve 2) 1).t.x⟩) :=
  ⟨by norm_num [lineCurve], c2_frame_sampler qhypot (lineCurve 2) 1 (by norm_num [lineCurve])⟩

/-- C3: the white-key quad builder emits exactly the four corners
`position ± normal * halfThickness` at each end, in the order start-outer,
end-outer, end-inner, start-inner, and the pipeline applies the single
half-thickness `thickness / 2` uniformly to every white key. -/
theorem c3_white_quad_corners (hypot : ℚ → ℚ → ℚ) (path : Curve)
    (o : KeyboardOptions) (s0 s1 c : ℚ) :
    (makeQuadCentered hypot path s0 s1 c).p1 =
      ⟨(geoAt hypot path s0).p.x + (geoAt hypot path s0).n.x * c,
       (geoAt hypot path s0).p.y + (geoAt hypot path s0).n.y * c⟩
    ∧ (makeQuadCentered hypot path s0 s1 c).p2 =
      ⟨(geoAt hypot path s1).p.x + (geoAt hypot path s1).n.x * c,
       (geoAt hypot path s1).p.y + (geoAt hypot path s1).n.y * c⟩
    ∧ (makeQuadCentered hypot path s0 s1 c).p3 =
      ⟨(geoAt hypot path s1).p.x - (geoAt hypot path s1).n.x * c,
       (geoAt hypot path s1).p.y - (geoAt hypot path s1).n.y * c⟩
    ∧ (makeQuadCentered hypot path s0 s1 c).p4 =
      ⟨(geoAt hypot path s0).p.x - (geoAt hypot path s0).n.x * c,
       (geoAt hypot path s0).p.y - (geoAt hypot path s0).n.y * c⟩
    ∧ (computeKeyboard hypot path o).whites =
      (List.range (whiteCountOf o.effectiveWhiteKeys)).map fun index =>
        makeQuadCentered hypot path
          (boundaryAt (spanOf path.totalLength (whiteCountOf o.effectiveWhiteKeys) o.whiteKeySpan)
            path.totalLength index)
          (boundaryAt (spanOf path.totalLength (whiteCountOf o.effectiveWhiteKeys) o.whiteKeySpan)
            path.totalLength (index + 1))
          (o.thickness / 2) :=
  ⟨rfl, rfl, rfl, rfl, rfl⟩

/-- C4 counterexample: the claim locates the no-black-key notes at "the 4th
and 7th notes of the 7-note natural cycle", but the 4th note (1-based) of
either cadence — F in the C-cycle, D in the A-cycle — does carry a black
key in `BLACK_FRACTIONS`. -/
theorem c4_cadence_counterexample :
    NOTE_ORDER_C.getD 3 Note.A = Note.F
    ∧ BLACK_FRACTIONS (NOTE_ORDER_C.getD 3 Note.A) ≠ none
    ∧ NOTE_ORDER_A.getD 3 Note.A = Note.D
    ∧ BLACK_FRACTIONS (NOTE_ORDER_A.getD 3 Note.A) ≠ none := by
  refine ⟨rfl, ?_, rfl, ?_⟩ <;> simp [NOTE_ORDER_A, NOTE_ORDER_C, BLACK_FRACTIONS]

/-- C4 (amended): black keys are considered only at boundary indices
`0 .. N-2`, so at most `N - 1` black keys are emitted, and a boundary is
cadence-skipped exactly when `cadence[i mod 7]` is marked as having no
black key, which holds exactly for the notes B and E (the 7th and 3rd
notes of the C-starting cycle, the 2nd and 5th of the A-starting cycle,
1-based). -/
theorem c4_black_key_cadence (hypot : ℚ → ℚ → ℚ) (path : Curve) (o : KeyboardOptions) :
    (computeKeyboard hypot path o).blacks.length ≤ whiteCountOf o.effectiveWhiteKeys - 1
    ∧ (computeKeyboard hypot path o).blacks =
        (List.range (whiteCountOf o.effectiveWhiteKeys - 1)).filterMap (fun index =>
          (blackSlot (spanOf path.totalLength (whiteCountOf o.effectiveWhiteKeys) o.whiteKeySpan)
              path.totalLength (whiteCountOf o.effectiveWhiteKeys) (noteOrder o.startOn)
              o.blackWidthRatio index).map fun extent =>
            makeQuadFromEdge hypot path extent.1 extent.2
              (anchorOffsetOf o.thickness o.orientation) (o.thickness * o.blackDepth)
              o.orientation)
    ∧ (∀ n : Note, BLACK_FRACTIONS n = none ↔ (n = Note.B ∨ n = Note.E))
    ∧ (∀ startOn : StartOn, ∀ index : ℕ,
        BLACK_FRACTIONS ((noteOrder startOn).getD (index % 7) Note.A) = none ↔
          ((noteOrder startOn).getD (index % 7) Note.A = Note.B ∨
           (noteOrder startOn).getD (index % 7) Note.A = Note.E))
    ∧ (∀ span L ratio : ℚ, ∀ N index : ℕ, ∀ order : List Note,
        BLACK_FRACTIONS (order.getD (index % 7) Note.A) = none →
          blackSlot span L N order ratio index = none)
    ∧ NOTE_ORDER_C.getD 2 Note.A = Note.E ∧ NOTE_ORDER_C.getD 6 Note.A = Note.B
    ∧ NOTE_ORDER_A.getD 1 Note.A = Note.B ∧ NOTE_ORDER_A.getD 4 Note.A = Note.E := by
  have hnotes : ∀ n : Note, BLACK_FRACTIONS n = none ↔ (n = Note.B ∨ n = Note.E) := by
    intro n
    cases n <;> simp [BLACK_FRACTIONS]
  refine ⟨?_, rfl, hnotes, fun startOn index => hnotes _, ?_, rfl, rfl, rfl, rfl⟩
  · calc (computeKeyboard hypot path o).blacks.length
        ≤ (List.range (whiteCountOf o.effectiveWhiteKeys - 1)).length :=
          List.length_filterMap_le _ _
      _ = whiteCountOf o.effectiveWhiteKeys - 1 := List.length_range _
  · intro span L ratio N index order hskip
    unfold blackSlot
    rw [hskip]

/-- C5: every emitted black key at boundary index `i` has its extent
strictly inside the clamp window
`[boundaries[i] + 0.001, boundaries[min(i+2, last)] - 0.001]` with
`s0 < s1`; a collapsed extent is never emitted, since emission requires
`s1 > s0`. -/
theorem c5_black_extent_contained (span L ratio : ℚ) (N index : ℕ)
    (order : List Note) (s0 s1 : ℚ)
    (h : blackSlot span L N order ratio index = some (s0, s1)) :
    boundaryAt span L index + 1/1000 ≤ s0 ∧ s0 < s1
    ∧ s1 ≤ boundaryAt span L (min (index + 2) N) - 1/1000 := by
  unfold blackSlot at h
  cases hm : BLACK_FRACTIONS (order.getD (index % 7) Note.A) with
  | none => rw [hm] at h; exact absurd h (by simp)
  | some f =>
    rw [hm] at h
    exact clampExtent_some _ _ _ _ _ _ h

theorem c5_black_extent_witness :
    blackSlot 100 700 7 NOTE_ORDER_A (62/100) 0 = some (69, 131)
    ∧ (boundaryAt 100 700 0 + 1/1000 ≤ 69 ∧ (69:ℚ) < 131
       ∧ 131 ≤ boundaryAt 100 700 (min (0 + 2) 7) - 1/1000) := by
  have hsome : blackSlot 100 700 7 NOTE_ORDER_A (62/100) 0 = some (69, 131) := by
    norm_num [blackSlot, clampExtent, shiftLow, shiftHigh, boundaryAt,
      BLACK_FRACTIONS, NOTE_ORDER_A, List.getD]
  exact ⟨hsome, c5_black_extent_contained 100 700 (62/100) 7 0 NOTE_ORDER_A 69 131 hsome⟩

/-- C6: the clamp shifts instead of truncating — for a boundary hosting a
black key, whenever the nominal width `span * blackWidthRatio` is positive
and fits inside the clamp window, the emitted extent has exactly that
width. -/
theorem c6_shift_preserves_width (span L ratio : ℚ) (N index : ℕ)
    (order : List Note)
    (hnote : BLACK_FRACTIONS (order.getD (index % 7) Note.A) ≠ none)
    (hw : 0 < span * ratio)
    (hfit : span * ratio ≤ (boundaryAt span L (min (index + 2) N) - 1/1000) -
        (boundaryAt span L index + 1/1000)) :
    ∃ s0 s1 : ℚ, blackSlot span L N order ratio index = some (s0, s1)
      ∧ s1 - s0 = span * ratio := by
  obtain ⟨f, hf⟩ := Option.ne_none_iff_exists'.mp hnote
  simp only [blackSlot, hf]
  obtain ⟨s0, s1, hsome, hwid⟩ :=
    clampExtent_width (boundaryAt span L index + 1/1000)
      (boundaryAt span L (min (index + 2) N) - 1/1000)
      (boundaryAt span L (index + 1) - span * ratio / 2)
      (boundaryAt span L (index + 1) + span * ratio / 2)
      (by linarith) (by linarith)
  exact ⟨s0, s1, hsome, by linarith⟩

theorem c6_shift_width_witness :
    BLACK_FRACTIONS (NOTE_ORDER_A.getD (0 % 7) Note.A) ≠ none
    ∧ (0:ℚ) < 100 * (62/100)
    ∧ (100:ℚ) * (62/100) ≤ (boundaryAt 100 700 (min (0 + 2) 7) - 1/1000) -
        (boundaryAt 100 700 0 + 1/1000)
    ∧ ∃ s0 s1 : ℚ, blackSlot 100 700 7 NOTE_ORDER_A (62/100) 0 = some (s0, s1)
        ∧ s1 - s0 = 100 * (62/100) := by
  have hnote : BLACK_FRACTIONS (NOTE_ORDER_A.getD (0 % 7) Note.A) ≠ none := by
    simp [NOTE_ORDER_A, BLACK_FRACTIONS]
  have hw : (0:ℚ) < 100 * (62/100) := by norm_num
  have hfit : (100:ℚ) * (62/100) ≤ (boundaryAt 100 700 (min (0 + 2) 7) - 1/1000) -
      (boundaryAt 100 700 0 + 1/1000) := by
    norm_num [boundaryAt]
  exact ⟨hnote, hw, hfit,
    c6_shift_preserves_width 100 700 (62/100) 7 0 NOTE_ORDER_A hnote hw hfit⟩

/-- C7: the black-key anchor offsets for orientations `1` and `-1` are
exact negations of each other (`-thickness/2` vs `+thickness/2`), and the
extrusion offset `depth * orientation` flips sign, so the extruded edge of
`makeQuadFromEdge` moves to the opposite side of the anchor edge. -/
theorem c7_orientation_antisymmetry (thickness depth : ℚ) (hypot : ℚ → ℚ → ℚ)
    (path : Curve) (s0 s1 a : ℚ) :
    anchorOffsetOf thickness .up = -(thickness / 2)
    ∧ anchorOffsetOf thickness .down = thickness / 2
    ∧ anchorOffsetOf thickness .up = -(anchorOffsetOf thickness .down)
    ∧ depth * Orientation.val .up = -(depth * Orientation.val .down)
    ∧ (makeQuadFromEdge hypot path s0 s1 a depth .up).p3.x -
        (makeQuadFromEdge hypot path s0 s1 a depth .up).p2.x =
      -((makeQuadFromEdge hypot path s0 s1 a depth .down).p3.x -
        (makeQuadFromEdge hypot path s0 s1 a depth .down).p2.x)
    ∧ (makeQuadFromEdge hypot path s0 s1 a depth .up).p3.y -
        (makeQuadFromEdge hypot path s0 s1 a depth .up).p2.y =
      -((makeQuadFromEdge hypot path s0 s1 a depth .down).p3.y -
        (makeQuadFromEdge hypot path s0 s1 a depth .down).p2.y)
    ∧ (makeQuadFromEdge hypot path s0 s1 a depth .up).p4.x -
        (makeQuadFromEdge hypot path s0 s1 a depth .up).p1.x =
      -((makeQuadFromEdge hypot path s0 s1 a depth .down).p4.x -
        (makeQuadFromEdge hypot path s0 s1 a depth .down).p1.x)
    ∧ (makeQuadFromEdge hypot path s0 s1 a depth .up).p4.y -
        (makeQuadFromEdge hypot path s0 s1 a depth .up).p1.y =
      -((makeQuadFromEdge hypot path s0 s1 a depth .down).p4.y -
        (makeQuadFromEdge hypot path s0 s1 a depth .down).p1.y) := by
  refine ⟨rfl, rfl, by simp [anchorOffsetOf], by simp [Orientation.val], ?_, ?_, ?_, ?_⟩
  all_goals
    simp only [makeQuadFromEdge, Orientation.val]
    ring

/-- C8: on a degenerate curve of total length zero the pipeline still
succeeds: every boundary equals `0`, and every white quad is fully
degenerate — all four corners coincide and its shoelace area is zero. -/
theorem c8_degenerate_curve (hypot : ℚ → ℚ → ℚ) (path : Curve) (o : KeyboardOptions)
    (hL : path.totalLength = 0) (h0 : hypot 0 0 = 0) :
    (∀ b ∈ boundariesOf o.effectiveWhiteKeys path.totalLength o.whiteKeySpan, b = 0)
    ∧ (∀ q ∈ (computeKeyboard hypot path o).whites,
        q.p1 = q.p2 ∧ q.p2 = q.p3 ∧ q.p3 = q.p4 ∧ quadArea2 q = 0) := by
  have hg : ∀ s : ℚ, geoAt hypot path s = ⟨path.pointAt 0, ⟨0, 0⟩, ⟨0, 0⟩⟩ :=
    geoAt_zero_total hypot path h0 hL
  constructor
  · intro b hb
    unfold boundariesOf partition at hb
    rw [hL] at hb
    obtain ⟨i, _, rfl⟩ := List.mem_map.mp hb
    unfold boundaryAt
    rw [min_eq_right]
    exact mul_nonneg (by positivity)
      (spanOf_nonneg 0 (whiteCountOf o.effectiveWhiteKeys) o.whiteKeySpan le_rfl)
  · intro q hq
    simp only [computeKeyboard, List.mem_map, List.mem_range] at hq
    obtain ⟨i, _, rfl⟩ := hq
    refine ⟨?_, ?_, ?_, ?_⟩ <;>
      simp [makeQuadCentered, hg, quadArea2]

theorem c8_degenerate_curve_witness :
    (lineCurve 0).totalLength = 0 ∧ qhypot 0 0 = 0
    ∧ ((∀ b ∈ boundariesOf (52:ℚ) (lineCurve 0).totalLength none, b = 0)
    ∧ (∀ q ∈ (computeKeyboard qhypot (lineCurve 0)
          ⟨52, .A, 80, none, 62/100, 64/100, .up⟩).whites,
        q.p1 = q.p2 ∧ q.p2 = q.p3 ∧ q.p3 = q.p4 ∧ quadArea2 q = 0)) :=
  ⟨rfl, by norm_num [qhypot],
    c8_degenerate_curve qhypot (lineCurve 0) ⟨52, .A, 80, none, 62/100, 64/100, .up⟩
      rfl (by norm_num [qhypot])⟩

/-- C9: the keyboard computation is deterministic and idempotent — any two
invocations with identical inputs produce coordinate-for-coordinate
identical white-quad and black-quad lists. -/
theorem c9_deterministic (hypA hypB : ℚ → ℚ → ℚ) (pathA pathB : Curve)
    (oA oB : KeyboardOptions) (hh : hypA = hypB) (hp : pathA = pathB) (ho : oA = oB) :
    (computeKeyboard hypA pathA oA).whites = (computeKeyboard hypB pathB oB).whites
    ∧ (computeKeyboard hypA pathA oA).blacks = (computeKeyboard hypB pathB oB).blacks := by
  subst hh hp ho
  exact ⟨rfl, rfl⟩

theorem c9_deterministic_witness :
    qhypot = qhypot ∧ lineCurve 700 = lineCurve 700
    ∧ (⟨7, .A, 80, none, 62/100, 64/100, .up⟩ : KeyboardOptions) =
        ⟨7, .A, 80, none, 62/100, 64/100, .up⟩
    ∧ ((computeKeyboard qhypot (lineCurve 700) ⟨7, .A, 80, none, 62/100, 64/100, .up⟩).whites =
        (computeKeyboard qhypot (lineCurve 700) ⟨7, .A, 80, none, 62/100, 64/100, .up⟩).whites
    ∧ (computeKeyboard qhypot (lineCurve 700) ⟨7, .A, 80, none, 62/100, 64/100, .up⟩).blacks =
        (computeKeyboard qhypot (lineCurve 700) ⟨7, .A, 80, none, 62/100, 64/100, .up⟩).blacks) :=
  ⟨rfl, rfl, rfl,
    c9_deterministic qhypot qhypot (lineCurve 700) (lineCurve 700) _ _ rfl rfl rfl⟩

/-- C10: when the hypot argument is a genuine Euclidean norm of the chord,
the `|| 1e-6` guard fires exactly when the chord is zero; for any nonzero
chord the returned tangent is an exact unit vector, and for a zero chord
the tangent and normal are both `(0, 0)`, so every corner offset built
from that frame coincides with the curve position. -/
theorem c10_tangent_guard (hypot : ℚ → ℚ → ℚ) (path : Curve) (s : ℚ)
    (hsq : hypot (chordX path s) (chordY path s) ^ 2 =
      chordX path s ^ 2 + chordY path s ^ 2) :
    (hypot (chordX path s) (chordY path s) = 0 ↔
      (chordX path s = 0 ∧ chordY path s = 0))
    ∧ (¬(chordX path s = 0 ∧ chordY path s = 0) →
        (geoAt hypot path s).t.x ^ 2 + (geoAt hypot path s).t.y ^ 2 = 1)
    ∧ ((chordX path s = 0 ∧ chordY path s = 0) →
        (geoAt hypot path s).t = ⟨0, 0⟩ ∧ (geoAt hypot path s).n = ⟨0, 0⟩
        ∧ ∀ c : ℚ,
            (geoAt hypot path s).p.x + (geoAt hypot path s).n.x * c =
              (geoAt hypot path s).p.x
            ∧ (geoAt hypot path s).p.y + (geoAt hypot path s).n.y * c =
              (geoAt hypot path s).p.y) := by
  have hiff : hypot (chordX path s) (chordY path s) = 0 ↔
      (chordX path s = 0 ∧ chordY path s = 0) := by
    constructor
    · intro hz
      rw [hz] at hsq
      norm_num at hsq
      constructor <;> nlinarith [sq_nonneg (chordX path s), sq_nonneg (chordY path s)]
    · intro hcc
      rw [hcc.1, hcc.2] at hsq ⊢
      norm_num at hsq
      exact hsq
  refine ⟨hiff, ?_, ?_⟩
  · intro hne
    have hz : hypot (chordX path s) (chordY path s) ≠ 0 := fun hz => hne (hiff.mp hz)
    unfold geoAt tangentLen
    rw [if_neg hz]
    field_simp
    linarith [hsq]
  · intro hcc
    have hz : hypot (chordX path s) (chordY path s) = 0 := hiff.mpr hcc
    unfold geoAt tangentLen
    rw [if_pos hz, hcc.1, hcc.2]
    norm_num

theorem c10_tangent_guard_witness :
    qhypot (chordX (lineCurve 2) 1) (chordY (lineCurve 2) 1) ^ 2 =
      chordX (lineCurve 2) 1 ^ 2 + chordY (lineCurve 2) 1 ^ 2
    ∧ ((qhypot (chordX (lineCurve 2) 1) (chordY (lineCurve 2) 1) = 0 ↔
      (chordX (lineCurve 2) 1 = 0 ∧ chordY (lineCurve 2) 1 = 0))
    ∧ (¬(chordX (lineCurve 2) 1 = 0 ∧ chordY (lineCurve 2) 1 = 0) →
        (geoAt qhypot (lineCurve 2) 1).t.x ^ 2 + (geoAt qhypot (lineCurve 2) 1).t.y ^ 2 = 1)
    ∧ ((chordX (lineCurve 2) 1 = 0 ∧ chordY (lineCurve 2) 1 = 0) →
        (geoAt qhypot (lineCurve 2) 1).t = ⟨0, 0⟩ ∧ (geoAt qhypot (lineCurve 2) 1).n = ⟨0, 0⟩
        ∧ ∀ c : ℚ,
            (geoAt qhypot (lineCurve 2) 1).p.x + (geoAt qhypot (lineCurve 2) 1).n.x * c =
              (geoAt qhypot (lineCurve 2) 1).p.x
            ∧ (geoAt qhypot (lineCurve 2) 1).p.y + (geoAt qhypot (lineCurve 2) 1).n.y * c =
              (geoAt qhypot (lineCurve 2) 1).p.y)) :=
  ⟨by norm_num [chordX, chordY, lineCurve, clampLen, qhypot],
    c10_tangent_guard qhypot (lineCurve 2) 1
      (by norm_num [chordX, chordY, lineCurve, clampLen, qhypot])⟩

end CurvedPianoKeys
